import Mathlib

/-!
Verification development for the overlaybd filesystem adapter layer.

Shallow embedding of the three source files:
* `src/overlaybd/fs/throttled-file.cpp` — sliding-window accounting queue
  (`StatisticsQueue`), throttle triplets and the IO splitter (`split_io`),
  and the per-operation throttle selection of `ThrottledFile`;
* `src/overlaybd/fs/asyncfs.cpp` — the forwarding table of `FSAdaptor`;
* `src/overlaybd/fs/cache/full_file_cache/cache_store.cpp` —
  `FileCacheStore::pwritev`.

Machine integers are modelled as `Nat`/`Int`; wrap-around is made explicit
(`% 2^32`, `% 2^64`, `Int.emod`) at the spots where the C code can actually
overflow or wrap.  Time is a `Nat` parameter: `now` is `photon::now / 1024`
(the code's millisecond-like unit), passed explicitly to each operation.
Blocking (`wait_for_pop`, `thread_yield`) is modelled instantaneously: an
operation that would park at the current instant is reported as such instead
of being stepped through time.
-/

namespace OverlayBD

/-- A `(timestamp, amount)` accounting sample, both `uint32_t` in the source. -/
structure Sample where
  time_stamp : Nat
  amount : Nat
deriving DecidableEq

/-- State of `FileSystem::StatisticsQueue` (throttled-file.cpp lines 31-142).
`m_events` is the bounded FIFO, head = oldest (`front`), with `capacity` the
ring-queue capacity; the remaining fields mirror the C members. -/
structure StatisticsQueue where
  m_events : List Sample
  capacity : Nat
  m_time_window : Nat
  m_rate : Nat
  m_sum : Nat
  m_limit : Nat
  m_timestamp_base : Nat
deriving DecidableEq

namespace StatisticsQueue

/-- Constructor `StatisticsQueue(uint32_t rate, uint32_t capacity)`
(lines 39-43): `m_limit = m_rate * m_time_window` with the default member
value `m_time_window = 1`, and
`m_timestamp_base = (photon::now / 1024) & ~((1<<29)-1)`.
`now_us` is `photon::now` at construction time. -/
def make (rate capacity now_us : Nat) : StatisticsQueue :=
  let now := now_us / 1024
  { m_events := []
    capacity := capacity
    m_time_window := 1
    m_rate := rate
    m_sum := 0
    m_limit := rate * 1
    m_timestamp_base := now - now % 2 ^ 29 }

/-- `_get_time(uint32_t timestamp)` (line 134): `m_timestamp_base + timestamp`. -/
def get_time (q : StatisticsQueue) (ts : Nat) : Nat :=
  q.m_timestamp_base + ts

/-- `_get_stamp(uint64_t timems)` (line 139): `timems - m_timestamp_base`
truncated to `uint32_t`; u64 subtraction then u32 truncation is the integer
difference modulo `2^32`. -/
def get_stamp (q : StatisticsQueue) (timems : Nat) : Nat :=
  ((((timems : Int) - (q.m_timestamp_base : Int)) % (2 ^ 32 : Int)).toNat)

/-- `_update_timestamp_base(now)` (lines 123-131): when `now` runs past
`base + 2^30 - 1`, rebase to `now & ~((1<<29)-1)` and shift every stored
stamp by `old_base - new_base` (u64 arithmetic assigned to u32, i.e. the
integer value modulo `2^32`). -/
def update_timestamp_base (q : StatisticsQueue) (now : Nat) : StatisticsQueue :=
  if q.m_timestamp_base + (2 ^ 30 - 1) < now then
    let new_base := now - now % 2 ^ 29
    { q with
      m_timestamp_base := new_base
      m_events := q.m_events.map fun s =>
        { s with time_stamp :=
            ((((s.time_stamp : Int) + (q.m_timestamp_base : Int) - (new_base : Int)) %
              (2 ^ 32 : Int)).toNat) } }
  else q

/-- `w0 = now - m_time_window * 1024UL` (line 54), a `uint64_t` subtraction,
hence wrapping modulo `2^64`. -/
def window_start (q : StatisticsQueue) (now : Nat) : Nat :=
  (now + 2 ^ 64 - q.m_time_window * 1024) % 2 ^ 64

/-- `head_working_time = m_events.front().amount / rate() * 1024UL` (line 55).
The source evaluates `front()` before any emptiness check; on an empty queue
this reads the empty ring's front slot (see `try_pop_reads_empty_front`), and
the value read is modelled by the default sample since the eviction loop,
being guarded by `!empty()`, never consumes it. -/
def head_working_time (q : StatisticsQueue) : Nat :=
  (q.m_events.headD ⟨0, 0⟩).amount / q.m_rate * 1024

/-- Loop condition of `try_pop` (lines 56-57) for one sample: the sample is
outside the window and the (entry-computed) working-time tail has passed. -/
def evictable (q : StatisticsQueue) (now hwt : Nat) (s : Sample) : Bool :=
  decide (q.get_time s.time_stamp < q.window_start now) &&
    decide (q.get_time s.time_stamp + hwt ≤ now)

/-- The pop loop of `try_pop` (lines 56-61): while the head satisfies `P`,
subtract its amount from the sum and drop it. -/
def pop_loop (P : Sample → Bool) : List Sample → Nat → List Sample × Nat
  | [], sum => ([], sum)
  | s :: rest, sum =>
    if P s then pop_loop P rest (sum - s.amount) else (s :: rest, sum)

/-- `try_pop()` (lines 49-64): update the base, then with `rate() != 0` run
the eviction loop using the working-time tail of the head **at entry**
(`head_working_time` is computed once, before the loop).  Returns the new
state and `now` (the C function's return value). -/
def try_pop (q : StatisticsQueue) (now : Nat) : StatisticsQueue × Nat :=
  let q1 := q.update_timestamp_base now
  if q1.m_rate ≠ 0 then
    let hwt := q1.head_working_time
    let pr := pop_loop (q1.evictable now hwt) q1.m_events q1.m_sum
    ({ q1 with m_events := pr.1, m_sum := pr.2 }, now)
  else (q1, now)

/-- Result of one `push_back` at a fixed instant: either it completes with a
new state, or it enters the `while (sum() >= limit())` window-drain branch
(lines 69-75, parking via `wait_for_pop`/`thread_yield`), or it is stuck in
the `while (m_events.full())` capacity loop (lines 78-81). -/
inductive PushResult where
  | done (q : StatisticsQueue)
  | parkedWindow
  | stuckFull
deriving DecidableEq

/-- The capacity loop `while (m_events.full()) { thread_yield(); try_pop(); }`
(lines 78-81) at a fixed instant: repeat `try_pop` while the queue is full;
at a fixed `now` each productive `try_pop` strictly shrinks the queue, so
`fuel := m_events.length` iterations reach a fixpoint; if the queue is still
full there, the C loop would spin without progress at this instant. -/
def drain_full (now : Nat) : Nat → StatisticsQueue → Option StatisticsQueue
  | 0, q => if q.m_events.length < q.capacity then some q else none
  | fuel + 1, q =>
    if q.m_events.length < q.capacity then some q
    else
      let q' := (q.try_pop now).1
      if q'.m_events.length = q.m_events.length then none
      else drain_full now fuel q'

/-- `push_back(uint32_t amount)` (lines 65-88) at instant `now`
(`photon::now / 1024`).  With `rate() == 0` it does nothing.  Otherwise:
if `sum() >= limit()` the window-drain branch is entered (modelled as
`parkedWindow`); else `try_pop()` runs, and the sample is appended with stamp
`_get_stamp(now)` when the queue is empty or the **front** (oldest) sample's
time differs from `now`, or merged into the front sample otherwise
(`m_events.front().amount += amount`, a u32 addition); finally
`m_sum += amount`. -/
def push_back (q : StatisticsQueue) (amount now : Nat) : PushResult :=
  if q.m_rate = 0 then .done q
  else if q.m_limit ≤ q.m_sum then .parkedWindow
  else
    let pr := q.try_pop now
    let q1 := pr.1
    let now1 := pr.2
    match q1.m_events with
    | [] =>
      match drain_full now1 q1.m_events.length q1 with
      | none => .stuckFull
      | some q2 =>
        .done { q2 with
                m_events := q2.m_events ++ [⟨q2.get_stamp now1, amount⟩]
                m_sum := q2.m_sum + amount }
    | s :: rest =>
      if q1.get_time s.time_stamp ≠ now1 then
        match drain_full now1 q1.m_events.length q1 with
        | none => .stuckFull
        | some q2 =>
          .done { q2 with
                  m_events := q2.m_events ++ [⟨q2.get_stamp now1, amount⟩]
                  m_sum := q2.m_sum + amount }
      else
        .done { q1 with
                m_events := { s with amount := (s.amount + amount) % 2 ^ 32 } :: rest
                m_sum := q1.m_sum + amount }

/-- The guard of the window-drain branch of `push_back` (line 69): with a
nonzero rate, the branch that parks or yields waiting for the window to
drain is entered exactly when `sum() >= limit()` on entry. -/
def push_back_blocks (q : StatisticsQueue) : Bool :=
  q.m_rate != 0 && decide (q.m_limit ≤ q.m_sum)

/-- Line 55 evaluates `m_events.front().amount` whenever `rate() != 0`,
before the `!m_events.empty()` guard of the loop: `try_pop` performs a front
access on an empty queue exactly when the rate is nonzero and the queue is
empty. -/
def try_pop_reads_empty_front (q : StatisticsQueue) : Bool :=
  q.m_rate != 0 && q.m_events.isEmpty

/-- `push_back` with nonzero rate and `sum() < limit()` skips the
window-drain loop and immediately calls `try_pop()` (line 76) on the
unchanged queue; when that queue is empty, `try_pop` is invoked on an empty
queue. -/
def push_back_calls_try_pop_on_empty (q : StatisticsQueue) : Bool :=
  q.m_rate != 0 && decide (q.m_sum < q.m_limit) && q.m_events.isEmpty

/-- Run a sequence of `push_back` calls, each given as `(amount, now)`;
`none` when some call does not complete at its instant. -/
def run_pushes (q : StatisticsQueue) : List (Nat × Nat) → Option StatisticsQueue
  | [] => some q
  | (a, t) :: rest =>
    match q.push_back a t with
    | .done q' => run_pushes q' rest
    | _ => none

/-- Whether some admit of the sequence enters the window-drain branch of
`push_back` (the branch that parks or yields waiting for the window to
drain); admits after a non-completing one never execute. -/
def any_admit_blocks (q : StatisticsQueue) : List (Nat × Nat) → Bool
  | [] => false
  | (a, t) :: rest =>
    q.push_back_blocks ||
      (match q.push_back a t with
       | .done q' => any_admit_blocks q' rest
       | _ => false)

/-- Modelled from the spec: the spec's `evict_expired` removes the head
"while the head sample is both outside the window and **its** virtual
working-time tail (`head.amount / rate` seconds) also falls at or before
`now`" — i.e. each head's own tail, recomputed per sample, unlike the
source's entry-computed `head_working_time`.  Defined for comparison with
`try_pop` (claim C5). -/
def evictable_own_tail (q : StatisticsQueue) (now : Nat) (s : Sample) : Bool :=
  decide (q.get_time s.time_stamp < q.window_start now) &&
    decide (q.get_time s.time_stamp + s.amount / q.m_rate * 1024 ≤ now)

/-- Modelled from the spec: `evict_expired` with the per-head working-time
tail, for comparison with the source's `try_pop`. -/
def evict_expired_spec (q : StatisticsQueue) (now : Nat) : StatisticsQueue :=
  let q1 := q.update_timestamp_base now
  if q1.m_rate ≠ 0 then
    let pr := pop_loop (q1.evictable_own_tail now) q1.m_events q1.m_sum
    { q1 with m_events := pr.1, m_sum := pr.2 }
  else q1

end StatisticsQueue

/-- `ThrottleLimits::UpperLimits` (field spelling `concurent_ops` as in the
source). All limits are `uint32_t` except `block_size` (`uint64_t`). -/
structure UpperLimits where
  concurent_ops : Nat
  IOPS : Nat
  throughput : Nat
  block_size : Nat
deriving DecidableEq

/-- `ThrottleLimits`: per-direction upper limits plus the time window. -/
structure ThrottleLimits where
  R : UpperLimits
  W : UpperLimits
  RW : UpperLimits
  time_window : Nat
deriving DecidableEq

/-- `ThrottledFile::Throttle`: a concurrency semaphore (its permit count)
plus the IOPS and throughput accounting queues. -/
structure Throttle where
  num_io : Nat
  iops : StatisticsQueue
  throughput : StatisticsQueue
deriving DecidableEq

/-- `Throttle(const ThrottleLimits::UpperLimits& limits, uint32_t window)`
(throttled-file.cpp lines 275-280): semaphore initialised with
`concurent_ops` permits, or `UINT32_MAX` when 0 (no limit); both queues are
constructed as `StatisticsQueue(rate, window * 1024U)` — the `uint32_t`
product `window * 1024U` (wrapping modulo `2^32`) is the queue **capacity**
argument. `now_us` is construction-time `photon::now`. -/
def Throttle.make (limits : UpperLimits) (window now_us : Nat) : Throttle :=
  { num_io := if limits.concurent_ops = 0 then 2 ^ 32 - 1 else limits.concurent_ops
    iops := StatisticsQueue.make limits.IOPS (window * 1024 % 2 ^ 32) now_us
    throughput := StatisticsQueue.make limits.throughput (window * 1024 % 2 ^ 32) now_us }

/-- The IO operations of `ThrottledFile` (lines 314-410). -/
inductive FileOp where
  | pread | preadv | preadv_mutable | read | readv | readv_mutable
  | pwrite | pwritev | pwritev_mutable | write | writev | writev_mutable
deriving DecidableEq

/-- The two per-direction throttle bundles of `ThrottledFile` (besides the
combined `t_all`): `t_read` and `t_write`. -/
inductive Direction where
  | read | write
deriving DecidableEq

/-- Which per-direction throttle each `ThrottledFile` operation passes as the
second `scoped_throttle` argument (the first is always `t_all`), transcribed
from lines 314-410: `pread`/`preadv`/`preadv_mutable`/`read`/`readv`/
`readv_mutable` pass `t_read`; `pwrite` (line 364) and `write` (line 388)
pass `t_write`; but `pwritev` (line 373), `pwritev_mutable` (line 381),
`writev` (line 398) and `writev_mutable` (line 406) pass `t_read`. -/
def direction_throttle : FileOp → Direction
  | .pread => .read
  | .preadv => .read
  | .preadv_mutable => .read
  | .read => .read
  | .readv => .read
  | .readv_mutable => .read
  | .pwrite => .write
  | .pwritev => .read
  | .pwritev_mutable => .read
  | .write => .write
  | .writev => .read
  | .writev_mutable => .read

/-- Which direction's `block_size` each operation passes to `split_io`
(transcribed from the same lines): all read operations use `m_limits.R`,
all write operations — including the four that pass `t_read` above — use
`m_limits.W`. -/
def block_size_direction : FileOp → Direction
  | .pread => .read
  | .preadv => .read
  | .preadv_mutable => .read
  | .read => .read
  | .readv => .read
  | .readv_mutable => .read
  | .pwrite => .write
  | .pwritev => .write
  | .pwritev_mutable => .write
  | .write => .write
  | .writev => .write
  | .writev_mutable => .write

/-- Whether the operation is a write operation, per the claim's and spec's
classification (`pwrite`, `write`, `pwritev`, `writev` and the `_mutable`
variants). -/
def is_write_op : FileOp → Bool
  | .pwrite => true
  | .pwritev => true
  | .pwritev_mutable => true
  | .write => true
  | .writev => true
  | .writev_mutable => true
  | _ => false

/-- The canonical chunk sequence of `split_io`: bytes remaining before each
sub-operation when every sub-operation transfers its full requested length
`min(remaining, block_size)`. -/
def remaining (count bs : Nat) : Nat → Nat
  | 0 => count
  | i + 1 => remaining count bs i - min (remaining count bs i) bs

/-- Prepend one requested length to a `(result, errno, requests)` triple. -/
def prependReq (len : Nat) (r : Int × Int × List Nat) : Int × Int × List Nat :=
  (r.1, r.2.1, len :: r.2.2)

/-- The `while (count > 0)` loop of `split_io` (throttled-file.cpp lines
243-264).  `f i = (ret, errno)` models the `i`-th call of `func` together
with the value `errno` holds after it; `e` is the errno on entry; `cnt` the
accumulated byte count.  Each sub-request is `len = min(count, bs)`; a short
return `ret < len` ends the loop — with `ret >= 0` the result is `cnt + ret`
(`LOG_ERRNO_RETURN(0, ret, ...)`, errno untouched), with `ret < 0` it is
`-1` (`LOG_ERRNO_RETURN(0, -1, ...)`, errno untouched); otherwise
`count -= ret; cnt += ret` and the loop repeats.  The result also carries
the list of requested lengths.  `fuel` is initialised to `count`: in the
loop `bs >= 1`, so each iteration consumes at least one byte and the
fuel-exhausted case (which returns the accumulator) is unreachable. -/
def split_io_loop (bs : Nat) (f : Nat → Int × Int) :
    Nat → Nat → Nat → Int → Int → Int × Int × List Nat
  | 0, _, _, cnt, e => (cnt, e, [])
  | fuel + 1, idx, count, cnt, e =>
    if count = 0 then (cnt, e, [])
    else if (f idx).1 < ((min count bs : Nat) : Int) then
      (if 0 ≤ (f idx).1 then (cnt + (f idx).1, (f idx).2, [min count bs])
       else (-1, (f idx).2, [min count bs]))
    else
      prependReq (min count bs)
        (split_io_loop bs f fuel (idx + 1) (count - (f idx).1.toNat) (cnt + (f idx).1)
          (f idx).2)

/-- `split_io(name, count, block_size, func, adv)` (lines 237-265): when
`block_size == 0 || count <= block_size`, a single `func(count)` call whose
result passes through verbatim; otherwise the splitting loop.  Returns
`(result, errno, requested lengths)`. -/
def split_io (count bs : Nat) (f : Nat → Int × Int) (e : Int) : Int × Int × List Nat :=
  if bs = 0 ∨ count ≤ bs then ((f 0).1, (f 0).2, [count])
  else split_io_loop bs f count 0 count 0 e

/-- The operations of the underlying `IFileSystem` (UIF) that `FSAdaptor`
can invoke via `PERFORM` (asyncfs.cpp).  `open2`/`open3` are the two `open`
overloads. -/
inductive UIFOp where
  | open2 | open3 | creat | mkdir | rmdir | symlink | readlink | link
  | rename | unlink | chmod | chown | lchown | opendir | stat | lstat
  | access | truncate | syncfs | statfs | statvfs
deriving DecidableEq

/-- The member pointer `&UIF::...` that each `FSAdaptor` method hands to its
performer (asyncfs.cpp lines 413-506): every method forwards to the
same-named UIF operation with its arguments verbatim — except `rename`
(line 453-456), whose body is `PERFORM(link, oldname, newname)`. -/
def FSAdaptor.forward_target : UIFOp → UIFOp
  | .rename => .link
  | op => op

/-- The underlying filesystem's `rename` and `link` entry points, as plain
functions (the performers hand back the underlying call's return value). -/
structure UIFfs where
  rename : String → String → Int
  link : String → String → Int

/-- `FSAdaptor::rename(oldname, newname)` (asyncfs.cpp lines 453-456):
`return PERFORM(link, oldname, newname);` — a single performer dispatch of
the UIF's `link` with the adapter's two path arguments, whose result is
returned. -/
def FSAdaptor.rename (uif : UIFfs) (oldname newname : String) : Int :=
  uif.link oldname newname

/-- `errno` value `ENOSPC`. -/
def ENOSPC : Int := 28

/-- Observable outcome of one `FileCacheStore::pwritev` call: return value,
errno on exit, and which collaborators were invoked. -/
structure PwritevOutcome where
  ret : Int
  errno : Int
  calledUnderlying : Bool
  calledForceRecycle : Bool
  calledUpdateLru : Bool
  calledUpdateSpace : Bool
  updateSpaceArg : Nat
deriving DecidableEq

/-- `kDiskBlockSize` (cache_store.cpp line 32). -/
def kDiskBlockSize : Nat := 512

/-- `FileCacheStore::pwritev` (cache_store.cpp lines 66-87).  Inputs model
the collaborators: `full` the value of
`cacheIsFull()` (i.e. `cachePool_->isFull()`, lines 175-177), `wret` the
return of `do_pwritev` (the underlying `localFile_->pwritev` under the range
lock), `werr` the errno after it, `ferr` the return of `localFile_->fstat`,
`fe` the errno after `fstat`, and `stBlocks` the `st_blocks` it reports.
When the pool is full: `errno = ENOSPC; return -1;` before anything else.
Otherwise the underlying write runs; `ret < 0 && errno == ENOSPC` triggers
`forceRecycle`; `ret > 0` leads to `fstat`, whose failure is logged
(`LOG_ERRNO_RETURN(0, ret, ...)` — errno untouched, result still `ret`),
and on whose success `updateLru` and
`updateSpace(kDiskBlockSize * st_blocks)` run; `ret` is returned. -/
def FileCacheStore.pwritev (full : Bool) (wret werr ferr fe : Int)
    (stBlocks : Nat) : PwritevOutcome :=
  if full then
    { ret := -1, errno := ENOSPC, calledUnderlying := false,
      calledForceRecycle := false, calledUpdateLru := false,
      calledUpdateSpace := false, updateSpaceArg := 0 }
  else
    let recycle := decide (wret < 0) && decide (werr = ENOSPC)
    if 0 < wret then
      if ferr ≠ 0 then
        { ret := wret, errno := fe, calledUnderlying := true,
          calledForceRecycle := recycle, calledUpdateLru := false,
          calledUpdateSpace := false, updateSpaceArg := 0 }
      else
        { ret := wret, errno := fe, calledUnderlying := true,
          calledForceRecycle := recycle, calledUpdateLru := true,
          calledUpdateSpace := true, updateSpaceArg := kDiskBlockSize * stBlocks }
    else
      { ret := wret, errno := werr, calledUnderlying := true,
        calledForceRecycle := recycle, calledUpdateLru := false,
        calledUpdateSpace := false, updateSpaceArg := 0 }

/-! ### Supporting lemmas about the accounting queue -/

namespace StatisticsQueue

theorem update_base_sum (q : StatisticsQueue) (now : Nat) :
    (q.update_timestamp_base now).m_sum = q.m_sum := by
  unfold update_timestamp_base; split <;> rfl

theorem update_base_rate (q : StatisticsQueue) (now : Nat) :
    (q.update_timestamp_base now).m_rate = q.m_rate := by
  unfold update_timestamp_base; split <;> rfl

theorem update_base_limit (q : StatisticsQueue) (now : Nat) :
    (q.update_timestamp_base now).m_limit = q.m_limit := by
  unfold update_timestamp_base; split <;> rfl

theorem update_base_window (q : StatisticsQueue) (now : Nat) :
    (q.update_timestamp_base now).m_time_window = q.m_time_window := by
  unfold update_timestamp_base; split <;> rfl

theorem update_base_capacity (q : StatisticsQueue) (now : Nat) :
    (q.update_timestamp_base now).capacity = q.capacity := by
  unfold update_timestamp_base; split <;> rfl

theorem update_base_events_nil (q : StatisticsQueue) (now : Nat)
    (h : q.m_events = []) : (q.update_timestamp_base now).m_events = [] := by
  unfold update_timestamp_base; split <;> simp [h]

theorem pop_loop_eq (P : Sample → Bool) (l : List Sample) (s : Nat) :
    pop_loop P l s = (l.dropWhile P, s - ((l.takeWhile P).map Sample.amount).sum) := by
  induction l generalizing s with
  | nil => simp [pop_loop]
  | cons a t ih =>
    by_cases h : P a
    · simp [pop_loop, h, ih, List.dropWhile_cons, List.takeWhile_cons, Nat.sub_sub]
    · simp [pop_loop, h, List.dropWhile_cons, List.takeWhile_cons]

theorem pop_loop_sum_le (P : Sample → Bool) (l : List Sample) (s : Nat) :
    (pop_loop P l s).2 ≤ s := by
  rw [pop_loop_eq]; exact Nat.sub_le _ _

/-- A structure update that writes back the fields' own values is the
identity. -/
theorem eta_update (q : StatisticsQueue) :
    ({ q with m_events := q.m_events, m_sum := q.m_sum } : StatisticsQueue) = q := rfl

theorem try_pop_snd (q : StatisticsQueue) (now : Nat) : (q.try_pop now).2 = now := by
  simp only [try_pop]; split <;> rfl

theorem try_pop_sum_le (q : StatisticsQueue) (now : Nat) :
    (q.try_pop now).1.m_sum ≤ q.m_sum := by
  simp only [try_pop]
  split
  · simp [pop_loop_eq, update_base_sum]
  · simp [update_base_sum]

theorem try_pop_limit (q : StatisticsQueue) (now : Nat) :
    (q.try_pop now).1.m_limit = q.m_limit := by
  simp only [try_pop]; split <;> simp [update_base_limit]

theorem drain_full_some (now : Nat) :
    ∀ (fuel : Nat) (q q' : StatisticsQueue), drain_full now fuel q = some q' →
      q'.m_sum ≤ q.m_sum ∧ q'.m_limit = q.m_limit := by
  intro fuel
  induction fuel with
  | zero =>
    intro q q' h
    simp only [drain_full] at h
    split at h
    · cases h; exact ⟨le_refl _, rfl⟩
    · cases h
  | succ n ih =>
    intro q q' h
    simp only [drain_full] at h
    split at h
    · cases h; exact ⟨le_refl _, rfl⟩
    · split at h
      · cases h
      · obtain ⟨h1, h2⟩ := ih _ _ h
        exact ⟨h1.trans (try_pop_sum_le q now), h2.trans (try_pop_limit q now)⟩

theorem push_back_done_bounds (q q' : StatisticsQueue) (a now : Nat)
    (h : q.push_back a now = .done q') :
    q'.m_sum ≤ q.m_sum + a ∧ q'.m_limit = q.m_limit := by
  simp only [push_back] at h
  split at h
  · cases h; exact ⟨Nat.le_add_right _ _, rfl⟩
  · split at h
    · cases h
    · have hsum := try_pop_sum_le q now
      have hlim := try_pop_limit q now
      split at h
      · -- empty-events arm
        split at h
        · cases h
        next q2 hq2 =>
          obtain ⟨d1, d2⟩ := drain_full_some _ _ _ _ hq2
          cases h
          exact ⟨by simpa using Nat.add_le_add_right (d1.trans hsum) a,
                 by simpa using d2.trans hlim⟩
      · -- cons arm
        split at h
        · -- new bucket: append after the capacity loop
          split at h
          · cases h
          next q2 hq2 =>
            obtain ⟨d1, d2⟩ := drain_full_some _ _ _ _ hq2
            cases h
            exact ⟨by simpa using Nat.add_le_add_right (d1.trans hsum) a,
                   by simpa using d2.trans hlim⟩
        · -- merge into the front sample
          cases h
          exact ⟨by simpa using Nat.add_le_add_right hsum a, by simpa using hlim⟩

theorem push_back_parked_iff (q : StatisticsQueue) (a now : Nat) :
    q.push_back a now = .parkedWindow ↔ q.push_back_blocks = true := by
  constructor
  · intro h
    simp only [push_back] at h
    split at h
    · cases h
    · split at h
      next hr hs => simp [push_back_blocks, hr, hs]
      · split at h
        · split at h <;> cases h
        · split at h
          · split at h <;> cases h
          · cases h
  · intro h
    simp only [push_back_blocks, Bool.and_eq_true, bne_iff_ne, ne_eq,
      decide_eq_true_eq] at h
    simp only [push_back]
    rw [if_neg h.1, if_pos h.2]

end StatisticsQueue

/-! ### Claim C5 — eviction uses the entry head's working-time tail -/

/-- A reachable queue state exercising the eviction loop of `try_pop`:
rate 1000, one-second window, base `2^30`, holding the samples
`(stamp 0, amount 5)` and `(stamp 1, amount 3000)`. -/
def q5cex : StatisticsQueue :=
  { m_events := [⟨0, 5⟩, ⟨1, 3000⟩]
    capacity := 2048
    m_time_window := 1
    m_rate := 1000
    m_sum := 3005
    m_limit := 1000
    m_timestamp_base := 2 ^ 30 }

/-- Counterexample to claim C5.  `q5cex` is reached from a fresh queue by two
admits.  At `now = 2^30 + 3000` the code's `try_pop` removes **both**
samples (using the entry head's working-time tail, `5 / 1000 * 1024 = 0`,
for each of them), although the second sample's own working-time tail,
`(2^30 + 1) + 3000 / 1000 * 1024`, falls strictly after `now` — per the
claim that sample must not be removed, as the spec-modelled
`evict_expired_spec` confirms by retaining it. -/
theorem try_pop_entry_tail_cex :
    StatisticsQueue.run_pushes (StatisticsQueue.make 1000 2048 (2 ^ 40))
        [(5, 2 ^ 30), (3000, 2 ^ 30 + 1)] = some q5cex ∧
    (q5cex.try_pop (2 ^ 30 + 3000)).1.m_events = [] ∧
    (q5cex.try_pop (2 ^ 30 + 3000)).1.m_sum = 0 ∧
    2 ^ 30 + 3000 < (2 ^ 30 + 1) + 3000 / 1000 * 1024 ∧
    (q5cex.evict_expired_spec (2 ^ 30 + 3000)).m_events = [⟨1, 3000⟩] := by
  refine ⟨by decide, by decide, by decide, by decide, by decide⟩

/-- Claim C5 as amended: on a queue with nonzero rate, `try_pop` removes
samples from the head exactly while the head is outside the window **and**
the working-time tail computed once at entry — from the amount of the head
sample present when `try_pop` began, not each sample's own — falls at or
before `now`; each removal subtracts exactly the removed sample's amount
from the sum (the retained suffix, and hence every other sample, is left
intact), and the call returns `now`. -/
theorem try_pop_uses_entry_head_tail (q : StatisticsQueue) (now : Nat)
    (hr : q.m_rate ≠ 0) :
    (q.try_pop now).1.m_events =
      (q.update_timestamp_base now).m_events.dropWhile
        ((q.update_timestamp_base now).evictable now
          (q.update_timestamp_base now).head_working_time) ∧
    (q.try_pop now).1.m_sum =
      q.m_sum -
        ((((q.update_timestamp_base now).m_events.takeWhile
            ((q.update_timestamp_base now).evictable now
              (q.update_timestamp_base now).head_working_time)).map
          Sample.amount).sum) ∧
    (q.try_pop now).2 = now := by
  have hr1 : (q.update_timestamp_base now).m_rate ≠ 0 := by
    rw [StatisticsQueue.update_base_rate]; exact hr
  simp only [StatisticsQueue.try_pop]
  rw [if_pos hr1]
  refine ⟨?_, ?_, rfl⟩
  · simp [StatisticsQueue.pop_loop_eq]
  · simp [StatisticsQueue.pop_loop_eq, StatisticsQueue.update_base_sum]

/-- Witness for `try_pop_uses_entry_head_tail` at the concrete state
`q5cex` and `now = 2^30 + 3000`. -/
theorem try_pop_uses_entry_head_tail_witness :
    (q5cex.try_pop (2 ^ 30 + 3000)).1.m_events =
      (q5cex.update_timestamp_base (2 ^ 30 + 3000)).m_events.dropWhile
        ((q5cex.update_timestamp_base (2 ^ 30 + 3000)).evictable (2 ^ 30 + 3000)
          (q5cex.update_timestamp_base (2 ^ 30 + 3000)).head_working_time) ∧
    (q5cex.try_pop (2 ^ 30 + 3000)).1.m_sum =
      q5cex.m_sum -
        ((((q5cex.update_timestamp_base (2 ^ 30 + 3000)).m_events.takeWhile
            ((q5cex.update_timestamp_base (2 ^ 30 + 3000)).evictable (2 ^ 30 + 3000)
              (q5cex.update_timestamp_base (2 ^ 30 + 3000)).head_working_time)).map
          Sample.amount).sum) ∧
    (q5cex.try_pop (2 ^ 30 + 3000)).2 = 2 ^ 30 + 3000 :=
  try_pop_uses_entry_head_tail q5cex (2 ^ 30 + 3000) (by decide)

/-! ### Claim C10 — the empty-queue front access in try_pop -/

/-- Counterexample to claim C10.  On the freshly constructed queue (rate 1),
the very first `push_back` has `sum() = 0 < limit()`, skips the window-drain
loop and calls `try_pop()` on the still-empty queue; `try_pop` with nonzero
rate evaluates `m_events.front().amount` (line 55) before the `!empty()`
guard, so the empty queue's front slot **is** accessed — the access the
claim says is unreachable. -/
theorem empty_front_read_reachable_cex :
    StatisticsQueue.push_back_calls_try_pop_on_empty (StatisticsQueue.make 1 1024 0) = true ∧
    StatisticsQueue.try_pop_reads_empty_front (StatisticsQueue.make 1 1024 0) = true := by
  refine ⟨by decide, by decide⟩

/-- Claim C10 as amended: `try_pop` on an empty queue with nonzero rate does
read the front slot of the empty ring (the `head_working_time` computation
precedes the emptiness check), but the eviction loop itself is guarded by
non-emptiness, so no sample is popped and the state is left unchanged apart
from the timestamp-base update; the call still returns `now`. -/
theorem try_pop_on_empty_reads_but_no_pop (q : StatisticsQueue) (now : Nat)
    (h : q.m_events = []) :
    (q.m_rate ≠ 0 → q.try_pop_reads_empty_front = true) ∧
    (q.try_pop now).1 = q.update_timestamp_base now ∧
    (q.try_pop now).2 = now := by
  have he : (q.update_timestamp_base now).m_events = [] :=
    StatisticsQueue.update_base_events_nil q now h
  refine ⟨?_, ?_, StatisticsQueue.try_pop_snd q now⟩
  · intro hr
    simp [StatisticsQueue.try_pop_reads_empty_front, h, hr]
  · simp only [StatisticsQueue.try_pop]
    split
    · rw [show StatisticsQueue.pop_loop
          ((q.update_timestamp_base now).evictable now
            (q.update_timestamp_base now).head_working_time)
          (q.update_timestamp_base now).m_events
          (q.update_timestamp_base now).m_sum
          = ([], (q.update_timestamp_base now).m_sum) by
        rw [he]; rfl]
      rw [← he]
    · rfl

/-- Witness for `try_pop_on_empty_reads_but_no_pop` on the fresh queue
`StatisticsQueue.make 1 16 0` at `now = 7`. -/
theorem try_pop_on_empty_witness :
    ((StatisticsQueue.make 1 16 0).m_rate ≠ 0 →
      (StatisticsQueue.make 1 16 0).try_pop_reads_empty_front = true) ∧
    ((StatisticsQueue.make 1 16 0).try_pop 7).1 =
      (StatisticsQueue.make 1 16 0).update_timestamp_base 7 ∧
    ((StatisticsQueue.make 1 16 0).try_pop 7).2 = 7 :=
  try_pop_on_empty_reads_but_no_pop (StatisticsQueue.make 1 16 0) 7 (by decide)

/-! ### Claim C4 — bounded admits never hit the window-drain branch -/

/-- Key invariant: if the current sum plus the total of the pending amounts
fits under the limit and every pending amount is positive, no `push_back`
of the sequence enters the window-drain branch. -/
theorem any_admit_blocks_of_bounded : ∀ (ops : List (Nat × Nat)) (q : StatisticsQueue),
    (∀ p ∈ ops, 0 < p.1) →
    q.m_sum + (ops.map Prod.fst).sum ≤ q.m_limit →
    StatisticsQueue.any_admit_blocks q ops = false := by
  intro ops
  induction ops with
  | nil => intro q _ _; rfl
  | cons p rest ih =>
    intro q hpos hsum
    obtain ⟨a, t⟩ := p
    have ha : 0 < a := hpos (a, t) (List.mem_cons_self _ _)
    have hrest : q.m_sum + a + (rest.map Prod.fst).sum ≤ q.m_limit := by
      simpa [Nat.add_assoc] using hsum
    have hlt : q.m_sum < q.m_limit := by omega
    have hb : q.push_back_blocks = false := by
      simp [StatisticsQueue.push_back_blocks, Nat.not_le.mpr hlt]
    rw [StatisticsQueue.any_admit_blocks, hb, Bool.false_or]
    cases hp : q.push_back a t with
    | done q' =>
      obtain ⟨h1, h2⟩ := StatisticsQueue.push_back_done_bounds q q' a t hp
      exact ih q' (fun p hm => hpos p (List.mem_cons_of_mem _ hm)) (by omega)
    | parkedWindow => rfl
    | stuckFull => rfl

/-- Counterexample to claim C4 as stated.  On a fresh queue with rate 1
(limit `= rate * window = 1`), the two admits `[(amount 1), (amount 0)]` at
the same instant have total amount `1 ≤ rate * window`, yet the second
`push_back` finds `sum() = 1 >= limit()` and takes the window-drain
blocking branch. -/
theorem zero_amount_admit_blocks_cex :
    ((([(1, 2 ^ 30), (0, 2 ^ 30)] : List (Nat × Nat)).map Prod.fst).sum ≤
      1 * (StatisticsQueue.make 1 1024 (2 ^ 40)).m_time_window) ∧
    StatisticsQueue.any_admit_blocks (StatisticsQueue.make 1 1024 (2 ^ 40))
      [(1, 2 ^ 30), (0, 2 ^ 30)] = true := by
  refine ⟨by decide, by decide⟩

/-- Claim C4 as amended: for every sequence of admits on a freshly
constructed accounting queue whose amounts are all **positive** and whose
total is at most `rate * window` (the queue's internal window,
`m_time_window = 1`), no admit takes the window-drain branch of `push_back`
(the branch that parks or yields waiting for the window to drain).  A
zero-amount admit issued when the sum already equals the limit is the one
exception the counterexample exhibits. -/
theorem no_window_block_of_bounded_admits (rate cap now_us : Nat)
    (ops : List (Nat × Nat)) (_hr : rate ≠ 0)
    (hpos : ∀ p ∈ ops, 0 < p.1)
    (htotal : (ops.map Prod.fst).sum ≤
      rate * (StatisticsQueue.make rate cap now_us).m_time_window) :
    StatisticsQueue.any_admit_blocks (StatisticsQueue.make rate cap now_us) ops = false := by
  apply any_admit_blocks_of_bounded ops _ hpos
  simpa [StatisticsQueue.make] using htotal

/-- Witness for `no_window_block_of_bounded_admits`: two admits of amount 1
on a fresh queue of rate 3 never block. -/
theorem no_window_block_of_bounded_admits_witness :
    StatisticsQueue.any_admit_blocks (StatisticsQueue.make 3 1024 (2 ^ 40))
      [(1, 2 ^ 30), (1, 2 ^ 30)] = false :=
  no_window_block_of_bounded_admits 3 1024 (2 ^ 40) [(1, 2 ^ 30), (1, 2 ^ 30)]
    (by decide) (by decide) (by decide)

/-! ### Claim C3 — the admission limit of a throttled file's queues -/

/-- Counterexample to claim C3.  A throttle built for a throttled file with
`throughput` rate 2 and `time_window` 3 gives its throughput queue the
admission limit 2, not `2 * 3 * 1024 = 6144`. -/
theorem throttle_limit_cex :
    (Throttle.make ⟨0, 7, 2, 0⟩ 3 0).throughput.m_limit = 2 ∧
    (Throttle.make ⟨0, 7, 2, 0⟩ 3 0).throughput.m_limit ≠ 2 * 3 * 1024 := by
  refine ⟨rfl, by decide⟩

/-- Claim C3 as amended: each queue of a throttle constructed with rate `r`
and window `w` has admission limit `r * 1` — `m_limit = m_rate *
m_time_window` with the internal window fixed at one second; there is no
`1024` factor in the limit.  The constructor argument `w` scales only the
FIFO capacity, which is `w * 1024` (a `uint32_t` product). -/
theorem throttle_queue_limits (l : UpperLimits) (window now_us : Nat) :
    (Throttle.make l window now_us).iops.m_limit = l.IOPS * 1 ∧
    (Throttle.make l window now_us).throughput.m_limit = l.throughput * 1 ∧
    (Throttle.make l window now_us).iops.m_time_window = 1 ∧
    (Throttle.make l window now_us).throughput.m_time_window = 1 ∧
    (Throttle.make l window now_us).iops.capacity = window * 1024 % 2 ^ 32 ∧
    (Throttle.make l window now_us).throughput.capacity = window * 1024 % 2 ^ 32 :=
  ⟨rfl, rfl, rfl, rfl, rfl, rfl⟩

/-! ### Claim C1 — direction of the throttle triplets per operation -/

/-- Evidence for the C1 code bug: the four vectored write operations
(`pwritev`, `pwritev_mutable`, `writev`, `writev_mutable`) pass `t_read` —
the read-direction triplet — to `scoped_throttle`, while `pwrite` and
`write` pass `t_write`, and `pwritev` at the same time splits by the
**write** block size: the read-direction throttling of the vectored writes
contradicts both the claim and the rest of the same functions. -/
theorem writev_family_uses_read_throttle :
    is_write_op .pwritev = true ∧ direction_throttle .pwritev = .read ∧
    is_write_op .pwritev_mutable = true ∧ direction_throttle .pwritev_mutable = .read ∧
    is_write_op .writev = true ∧ direction_throttle .writev = .read ∧
    is_write_op .writev_mutable = true ∧ direction_throttle .writev_mutable = .read ∧
    direction_throttle .pwrite = .write ∧ direction_throttle .write = .write ∧
    block_size_direction .pwritev = .write ∧ Direction.read ≠ Direction.write := by
  decide

/-! ### Claim C2 — the adapter's rename forwards to link -/

/-- Evidence for the C2 code bug: `FSAdaptor::rename` hands the member
pointer `&UIF::link` to its performer, so on an underlying filesystem whose
`link` returns 7 and whose `rename` returns 0, the adapter's `rename`
returns 7 — the underlying `rename` is never invoked. -/
theorem rename_forwards_to_link :
    FSAdaptor.forward_target UIFOp.rename = UIFOp.link ∧
    UIFOp.link ≠ UIFOp.rename ∧
    FSAdaptor.rename { rename := fun _ _ => 0, link := fun _ _ => 7 } "a" "b" = 7 ∧
    ({ rename := fun _ _ => 0, link := fun _ _ => 7 : UIFfs }).rename "a" "b" = 0 :=
  ⟨rfl, by decide, rfl, rfl⟩

/-! ### Claims C8 and C9 — the cache store's pwritev -/

/-- Claim C8: when the underlying write returns a positive byte count and
the subsequent `fstat` of the local file fails, `FileCacheStore::pwritev`
still returns that positive count (the error is logged via
`LOG_ERRNO_RETURN(0, ret, ...)`, which neither changes the result nor
`errno`); the LRU/space updates are skipped. -/
theorem pwritev_fstat_error_keeps_result (wret werr ferr fe : Int) (stBlocks : Nat)
    (hw : 0 < wret) (hf : ferr ≠ 0) :
    (FileCacheStore.pwritev false wret werr ferr fe stBlocks).ret = wret ∧
    (FileCacheStore.pwritev false wret werr ferr fe stBlocks).calledUnderlying = true ∧
    (FileCacheStore.pwritev false wret werr ferr fe stBlocks).errno = fe := by
  simp [FileCacheStore.pwritev, hw, hf]

/-- Witness for `pwritev_fstat_error_keeps_result` with a write of 5 bytes
and a failing `fstat`. -/
theorem pwritev_fstat_error_keeps_result_witness :
    (FileCacheStore.pwritev false 5 0 1 17 3).ret = 5 ∧
    (FileCacheStore.pwritev false 5 0 1 17 3).calledUnderlying = true ∧
    (FileCacheStore.pwritev false 5 0 1 17 3).errno = 17 :=
  pwritev_fstat_error_keeps_result 5 0 1 17 3 (by decide) (by decide)

/-- Claim C9: whenever the cache pool reports full, `pwritev` returns `-1`
with `errno = ENOSPC`, the underlying file's `pwritev` is never invoked,
and neither the LRU nor the space accounting is touched. -/
theorem pwritev_cache_full_enospc (wret werr ferr fe : Int) (stBlocks : Nat) :
    FileCacheStore.pwritev true wret werr ferr fe stBlocks =
      { ret := -1, errno := ENOSPC, calledUnderlying := false,
        calledForceRecycle := false, calledUpdateLru := false,
        calledUpdateSpace := false, updateSpaceArg := 0 } := rfl

/-! ### Claim C6 — the IO splitter -/

theorem remaining_le_self (count bs : Nat) : ∀ i, remaining count bs i ≤ count := by
  intro i
  induction i with
  | zero => exact le_refl _
  | succ n ih => exact (Nat.sub_le _ _).trans ih

theorem remaining_succ_shift (count bs : Nat) :
    ∀ i, remaining count bs (i + 1) = remaining (count - min count bs) bs i := by
  intro i
  induction i with
  | zero => simp [remaining]
  | succ n ih => simp only [remaining] at ih ⊢; rw [ih]

/-- Behaviour of the splitting loop up to and including the first short
sub-operation: if the first `j` calls each transfer their full request
`min(remaining, bs)` and call `j` is short, the loop has issued the requests
`min(remaining i, bs)` for `i ≤ j` and returns accumulated-plus-short on a
nonnegative short return, `-1` on a negative one, with the errno of the
failing call. -/
theorem split_io_loop_first_short (bs : Nat) (f : Nat → Int × Int) (hbs : 0 < bs) :
    ∀ (j fuel idx count : Nat) (cnt e : Int),
      count ≤ fuel →
      (∀ i, i < j → (f (idx + i)).1 = ((min (remaining count bs i) bs : Nat) : Int)) →
      0 < remaining count bs j →
      (f (idx + j)).1 < ((min (remaining count bs j) bs : Nat) : Int) →
      split_io_loop bs f fuel idx count cnt e =
        ((if 0 ≤ (f (idx + j)).1
            then cnt + ((count - remaining count bs j : Nat) : Int) + (f (idx + j)).1
            else -1),
          (f (idx + j)).2,
          (List.range (j + 1)).map fun i => min (remaining count bs i) bs) := by
  intro j
  induction j with
  | zero =>
    intro fuel idx count cnt e hfuel _ hpos hshort
    simp only [remaining] at hpos hshort
    cases fuel with
    | zero => omega
    | succ fu =>
      rw [split_io_loop]
      rw [if_neg (by omega)]
      rw [if_pos (by simpa using hshort)]
      simp only [Nat.add_zero, remaining, List.range_succ, List.range_zero,
        List.nil_append, List.map_cons, List.map_nil, Nat.sub_self, Nat.cast_zero,
        add_zero]
      split <;> rfl
  | succ n ih =>
    intro fuel idx count cnt e hfuel hfull hpos hshort
    have hle : remaining count bs (n + 1) ≤ count := remaining_le_self count bs _
    have hc0 : 0 < count := by omega
    cases fuel with
    | zero => omega
    | succ fu =>
      have hm1 : 1 ≤ min count bs := by omega
      have hf0 : (f idx).1 = ((min count bs : Nat) : Int) := by
        have h := hfull 0 (by omega)
        simpa [remaining] using h
      have hR1 : remaining count bs (n + 1) ≤ count - min count bs := by
        rw [remaining_succ_shift]; exact remaining_le_self _ _ _
      rw [split_io_loop]
      rw [if_neg (by omega)]
      rw [if_neg (by rw [hf0]; exact lt_irrefl _)]
      have htn : (f idx).1.toNat = min count bs := by rw [hf0]; omega
      rw [htn, hf0]
      have IH := ih fu (idx + 1) (count - min count bs)
        (cnt + ((min count bs : Nat) : Int)) (f idx).2
        (by omega)
        (by
          intro i hi
          have h := hfull (i + 1) (by omega)
          rw [show idx + (i + 1) = idx + 1 + i by omega] at h
          rw [← remaining_succ_shift]
          exact h)
        (by rw [← remaining_succ_shift]; exact hpos)
        (by
          rw [← remaining_succ_shift]
          rw [show idx + 1 + n = idx + (n + 1) by omega]
          exact hshort)
      rw [IH]
      rw [show idx + 1 + n = idx + (n + 1) by omega]
      simp only [prependReq]
      refine Prod.ext ?_ (Prod.ext rfl ?_)
      · rw [← remaining_succ_shift]
        split <;> [omega; rfl]
      · rw [List.range_succ_eq_map (n + 1)]
        simp only [List.map_cons, List.map_map]
        congr 1
        refine List.map_congr_left ?_
        intro a _
        simp only [Function.comp_apply]
        rw [← remaining_succ_shift]

/-- Claim C6: `split_io` invokes the underlying operation exactly once with
the full count when `block_size` is zero or `count <= block_size`, passing
its result and errno through verbatim; otherwise it issues sub-operations
of requested length `min(remaining, block_size)` and, at the first short
return, yields the accumulated bytes including the short return when it is
nonnegative, or `-1` when it is negative — the errno of the failing call
being preserved either way (the `LOG_ERRNO_RETURN(0, ...)` macros do not
touch errno). -/
theorem split_io_matches_claim (count bs : Nat) (f : Nat → Int × Int) (e : Int) :
    ((bs = 0 ∨ count ≤ bs) → split_io count bs f e = ((f 0).1, (f 0).2, [count])) ∧
    (∀ j, 0 < bs → bs < count →
      (∀ i, i < j → (f i).1 = ((min (remaining count bs i) bs : Nat) : Int)) →
      0 < remaining count bs j →
      (f j).1 < ((min (remaining count bs j) bs : Nat) : Int) →
      split_io count bs f e =
        ((if 0 ≤ (f j).1
            then ((count - remaining count bs j : Nat) : Int) + (f j).1
            else -1),
          (f j).2,
          (List.range (j + 1)).map fun i => min (remaining count bs i) bs)) := by
  constructor
  · intro h
    unfold split_io
    rw [if_pos h]
  · intro j hbs hlt hfull hpos hshort
    unfold split_io
    rw [if_neg (by omega)]
    have L := split_io_loop_first_short bs f hbs j count 0 count 0 e (le_refl count)
      (by simpa using hfull) hpos (by simpa using hshort)
    rw [L]
    simp only [Nat.zero_add, zero_add]

/-- Witness for `split_io_matches_claim`: with `count = 10`, `bs = 4` and an
underlying operation returning 4 then a short 2 (setting errno 7), the split
returns 6 bytes, errno 7 and the request trace `[4, 4]`; with
`count = 3 <= bs = 7` the single full call passes through. -/
theorem split_io_matches_claim_witness :
    split_io 10 4 (fun i => if i = 0 then ((4 : Int), (0 : Int)) else (2, 7)) 0 =
      (6, 7, [4, 4]) ∧
    split_io 3 7 (fun _ => ((3 : Int), (0 : Int))) 0 = (3, 0, [3]) := by
  constructor
  · have h := (split_io_matches_claim 10 4
      (fun i => if i = 0 then ((4 : Int), (0 : Int)) else (2, 7)) 0).2 1
      (by decide) (by decide)
      (by decide)
      (by decide) (by decide)
    rw [h]
    decide
  · have h := (split_io_matches_claim 3 7 (fun _ => ((3 : Int), (0 : Int))) 0).1
      (Or.inr (by decide))
    rw [h]

/-! ### Claim C7 — bucket merging -/

namespace StatisticsQueue

theorem update_base_noop (q : StatisticsQueue) (now : Nat)
    (h : now ≤ q.m_timestamp_base + (2 ^ 30 - 1)) :
    q.update_timestamp_base now = q := by
  unfold update_timestamp_base
  rw [if_neg (by omega)]

theorem get_stamp_eq (q : StatisticsQueue) (now : Nat)
    (h1 : q.m_timestamp_base ≤ now) (h2 : now - q.m_timestamp_base < 2 ^ 32) :
    q.get_stamp now = now - q.m_timestamp_base := by
  unfold get_stamp
  rw [show ((now : Int) - (q.m_timestamp_base : Int)) =
      ((now - q.m_timestamp_base : Nat) : Int) by omega]
  rw [Int.emod_eq_of_lt (by exact_mod_cast Nat.zero_le _) (by exact_mod_cast h2)]
  simp

/-- First admit into an empty queue below the limit: the sample
`(now - base, amount)` is appended and the sum grows by `amount`. -/
theorem push_back_empty (q : StatisticsQueue) (a now : Nat)
    (hr : q.m_rate ≠ 0) (hsum : q.m_sum < q.m_limit) (hev : q.m_events = [])
    (hcap : 0 < q.capacity)
    (hb1 : q.m_timestamp_base ≤ now)
    (hb2 : now ≤ q.m_timestamp_base + (2 ^ 30 - 1)) :
    q.push_back a now =
      .done { q with m_events := [⟨now - q.m_timestamp_base, a⟩],
                     m_sum := q.m_sum + a } := by
  obtain ⟨ev, cap, tw, r, s, l, b⟩ := q
  simp only at hr hsum hev hcap hb1 hb2 ⊢
  subst hev
  have hstamp : get_stamp ⟨[], cap, tw, r, s, l, b⟩ now = now - b :=
    get_stamp_eq _ now hb1 (show now - b < 2 ^ 32 by omega)
  have hnoop : update_timestamp_base ⟨[], cap, tw, r, s, l, b⟩ now =
      ⟨[], cap, tw, r, s, l, b⟩ :=
    update_base_noop _ now hb2
  have htp : try_pop ⟨[], cap, tw, r, s, l, b⟩ now = (⟨[], cap, tw, r, s, l, b⟩, now) := by
    simp only [try_pop, hnoop]
    rw [if_pos hr]
    simp [pop_loop]
  simp only [push_back, htp]
  rw [if_neg hr, if_neg (by omega)]
  simp [drain_full, hcap, hstamp]

/-- Admit into a queue whose only sample carries the current bucket stamp
and whose sum is below the limit: the amount is merged into that sample. -/
theorem push_back_merge (q : StatisticsQueue) (a B now : Nat)
    (hr : q.m_rate ≠ 0) (hsum : q.m_sum < q.m_limit)
    (hev : q.m_events = [⟨now - q.m_timestamp_base, B⟩])
    (hb1 : q.m_timestamp_base ≤ now)
    (hb2 : now ≤ q.m_timestamp_base + (2 ^ 30 - 1))
    (hw : q.m_time_window * 1024 ≤ now) (h64 : now < 2 ^ 64)
    (hBa : B + a < 2 ^ 32) :
    q.push_back a now =
      .done { q with m_events := [⟨now - q.m_timestamp_base, B + a⟩],
                     m_sum := q.m_sum + a } := by
  obtain ⟨ev, cap, tw, r, s, l, b⟩ := q
  simp only at hr hsum hev hb1 hb2 hw ⊢
  subst hev
  have hnoop : update_timestamp_base ⟨[⟨now - b, B⟩], cap, tw, r, s, l, b⟩ now =
      ⟨[⟨now - b, B⟩], cap, tw, r, s, l, b⟩ :=
    update_base_noop _ now hb2
  have hP : evictable ⟨[⟨now - b, B⟩], cap, tw, r, s, l, b⟩ now
      (head_working_time ⟨[⟨now - b, B⟩], cap, tw, r, s, l, b⟩) ⟨now - b, B⟩ = false := by
    simp only [evictable, get_time, window_start, Bool.and_eq_false_iff,
      decide_eq_false_iff_not, Nat.not_lt, Nat.not_le]
    omega
  have htp : try_pop ⟨[⟨now - b, B⟩], cap, tw, r, s, l, b⟩ now =
      (⟨[⟨now - b, B⟩], cap, tw, r, s, l, b⟩, now) := by
    simp only [try_pop, hnoop]
    rw [if_pos hr]
    simp [pop_loop, hP]
  simp only [push_back, htp]
  rw [if_neg hr, if_neg (by omega)]
  have hgt : get_time ⟨[⟨now - b, B⟩], cap, tw, r, s, l, b⟩ (now - b) = now := by
    simp [get_time]; omega
  have hmod : (B + a) % 2 ^ 32 = B + a := Nat.mod_eq_of_lt hBa
  simp [hgt, hmod]
  omega

end StatisticsQueue

/-- Counterexample to claim C7 as stated.  On a queue of rate 1000 already
holding an older sample (stamp 0, admitted at `2^30`), two admits of amount
5 carrying the same bucket timestamp `2^30 + 1` produce **two** retained
samples of amount 5 sharing stamp 1 — not one sample of amount 10: the
merge test of `push_back` compares the bucket against the **front** (the
oldest sample, stamp 0), which never matches, so each admit appends. -/
theorem bucket_merge_front_cex :
    (StatisticsQueue.run_pushes (StatisticsQueue.make 1000 1024 (2 ^ 40))
        [(5, 2 ^ 30), (5, 2 ^ 30 + 1), (5, 2 ^ 30 + 1)]).map
      StatisticsQueue.m_events =
      some [⟨0, 5⟩, ⟨1, 5⟩, ⟨1, 5⟩] := by
  decide

/-- Claim C7 as amended: `N >= 1` admits of amount `A` carrying the same
bucket timestamp coalesce into a single retained sample of amount `N * A`
when the queue holds no **older** sample — the merge test compares the
current bucket with the front (oldest) sample — as here, starting from a
queue with no retained samples; the hypotheses keep every admit below the
limit, inside the timestamp window, free of `uint32` overflow and of
`uint64` wrap of the window start. -/
theorem push_back_coalesce_from_empty (q : StatisticsQueue) (A N now : Nat)
    (hr : q.m_rate ≠ 0) (hev : q.m_events = []) (hcap : 0 < q.capacity)
    (hN : 1 ≤ N) (_hA : 0 < A) (hNA : N * A < 2 ^ 32)
    (hb1 : q.m_timestamp_base ≤ now)
    (hb2 : now ≤ q.m_timestamp_base + (2 ^ 30 - 1))
    (hw : q.m_time_window * 1024 ≤ now) (h64 : now < 2 ^ 64)
    (hblock : q.m_sum + (N - 1) * A < q.m_limit) :
    StatisticsQueue.run_pushes q (List.replicate N (A, now)) =
      some { q with m_events := [⟨now - q.m_timestamp_base, N * A⟩],
                    m_sum := q.m_sum + N * A } := by
  set S : Nat → StatisticsQueue := fun j =>
    { q with m_events := [⟨now - q.m_timestamp_base, j * A⟩],
             m_sum := q.m_sum + j * A } with hS
  have hstep : ∀ j, 1 ≤ j → j < N →
      (S j).push_back A now = .done (S (j + 1)) := by
    intro j hj1 hjN
    have hmul : j * A ≤ (N - 1) * A := Nat.mul_le_mul_right A (by omega)
    have h := StatisticsQueue.push_back_merge (S j) A (j * A) now hr
      (by simp [hS]; omega) (by simp [hS]) hb1 hb2 hw h64
      (by
        have ha1 : (j + 1) * A ≤ N * A := Nat.mul_le_mul_right A (by omega)
        have ha2 : (j + 1) * A = j * A + A := by ring
        omega)
    rw [h]
    have : j * A + A = (j + 1) * A := by ring
    simp [hS, this, Nat.add_assoc]
  have htail : ∀ (m j : Nat), 1 ≤ j → j + m = N →
      StatisticsQueue.run_pushes (S j) (List.replicate m (A, now)) = some (S N) := by
    intro m
    induction m with
    | zero =>
      intro j hj1 hjN
      simp only [List.replicate, StatisticsQueue.run_pushes]
      rw [show j = N by omega]
    | succ k ih =>
      intro j hj1 hjN
      rw [List.replicate_succ, StatisticsQueue.run_pushes, hstep j hj1 (by omega)]
      exact ih (j + 1) (by omega) (by omega)
  obtain ⟨M, rfl⟩ : ∃ M, N = M + 1 := ⟨N - 1, by omega⟩
  rw [List.replicate_succ, StatisticsQueue.run_pushes]
  have h1 := StatisticsQueue.push_back_empty q A now hr (by omega) hev hcap hb1 hb2
  rw [h1]
  have hS1 : ({ q with m_events := [⟨now - q.m_timestamp_base, A⟩],
                       m_sum := q.m_sum + A } : StatisticsQueue) = S 1 := by
    simp [hS]
  rw [hS1]
  exact htail M 1 (by omega) (by omega)

/-- Witness for `push_back_coalesce_from_empty`: three admits of amount 5 at
bucket `2^30` on a fresh queue of rate 1000 coalesce into one sample of
amount 15. -/
theorem push_back_coalesce_from_empty_witness :
    StatisticsQueue.run_pushes (StatisticsQueue.make 1000 1024 (2 ^ 40))
        (List.replicate 3 (5, 2 ^ 30)) =
      some { StatisticsQueue.make 1000 1024 (2 ^ 40) with
             m_events := [⟨2 ^ 30 - (StatisticsQueue.make 1000 1024 (2 ^ 40)).m_timestamp_base,
                           3 * 5⟩],
             m_sum := (StatisticsQueue.make 1000 1024 (2 ^ 40)).m_sum + 3 * 5 } :=
  push_back_coalesce_from_empty (StatisticsQueue.make 1000 1024 (2 ^ 40)) 5 3 (2 ^ 30)
    (by decide) (by decide) (by decide) (by decide) (by decide) (by decide)
    (by decide) (by decide) (by decide) (by decide) (by decide)

end OverlayBD
